import Mathlib

/-!
# Verification of the dikto/sotto capture → VAD → session → inference pipeline

Shallow embedding of the Rust sources:
* `crates/sotto-core/src/transcribe.rs` — `TranscribeSession::flush`,
  `is_hallucination`, the 4-minute truncation cap;
* `crates/sotto-core/src/lib.rs` — `SessionHandle`, `SottoEngine::start_listening`,
  `run_pipeline` (the background worker loop);
* `crates/dikto-core/src/models.rs` — the size-tolerance check of `download_model`.

Audio samples are `f32` in the source but no code path inspects their values
(only lengths and positions matter), so samples are embedded as `Int`.
Transcript text is embedded as `List Char` so that Rust's `str::trim`
(Unicode `White_Space`) can be modelled exactly.  Stateful code is embedded as
explicit state passing; the mic/VAD/lock/inference collaborators are oracle
parameters, so every theorem quantifies over all of their behaviours.
-/

namespace Dikto

/-- Audio samples are 16 kHz mono `f32` in the source; no pipeline code path
reads a sample's value, so they are embedded as integers. -/
abbrev Sample := Int

/-- Rust `char::is_whitespace`: the Unicode `White_Space` property
(U+0009–U+000D, U+0020, U+0085, U+00A0, U+1680, U+2000–U+200A, U+2028,
U+2029, U+202F, U+205F, U+3000). -/
def rustIsWhitespace (c : Char) : Bool :=
  let n := c.toNat
  (9 ≤ n && n ≤ 13) || n == 32 || n == 133 || n == 160 || n == 5760 ||
    (8192 ≤ n && n ≤ 8202) || n == 8232 || n == 8233 || n == 8239 ||
    n == 8287 || n == 12288

/-- Rust `str::trim`: drop whitespace from both ends. -/
def trimChars (s : List Char) : List Char :=
  ((s.dropWhile rustIsWhitespace).reverse.dropWhile rustIsWhitespace).reverse

/-- `transcribe.rs::is_hallucination`: after trimming, the text is wholly
wrapped in `[...]` or `(...)`. -/
def isHallucination (text : List Char) : Bool :=
  let t := trimChars text
  (t.head? == some '[' && t.getLast? == some ']') ||
    (t.head? == some '(' && t.getLast? == some ')')

/-- `transcribe.rs::TranscribeError`. -/
inductive TranscribeError where
  | modelLoad (msg : String)
  | inference (msg : String)
  | notLoaded
  deriving Repr, DecidableEq

/-- `transcribe.rs::TranscriptSegment`. -/
structure TranscriptSegment where
  text : List Char
  is_final : Bool
  deriving Repr, DecidableEq

/-- `MAX_SAMPLES` from `TranscribeSession::flush`: 4 minutes at 16 kHz. -/
def MAX_SAMPLES : Nat := 4 * 60 * 16000

/-- The truncation step of `flush`: `Vec::truncate(MAX_SAMPLES)` keeps the
first `MAX_SAMPLES` samples when the buffer is longer. -/
def truncateBuf (buf : List Sample) : List Sample :=
  if buf.length > MAX_SAMPLES then buf.take MAX_SAMPLES else buf

instance {ε α : Type _} [DecidableEq ε] [DecidableEq α] : DecidableEq (Except ε α) :=
  fun a b =>
    match a, b with
    | .ok x, .ok y => decidable_of_iff (x = y) (by simp)
    | .ok _, .error _ => .isFalse (fun h => by cases h)
    | .error _, .ok _ => .isFalse (fun h => by cases h)
    | .error x, .error y => decidable_of_iff (x = y) (by simp)

/-- Observable outcome of one `TranscribeSession::flush` call: the session
buffer after the call, the returned value, the samples handed to the
inference engine (`none` when inference was never invoked), and whether the
engine lock was acquired. -/
structure FlushOut where
  newBuf : List Sample
  result : Except TranscribeError (List TranscriptSegment)
  inferenceInput : Option (List Sample)
  lockAcquired : Bool
  deriving Repr, DecidableEq

/-- `TranscribeSession::flush` (transcribe.rs lines 101–146): empty-buffer
no-op; truncate to `MAX_SAMPLES`; acquire the engine lock (`lockOk` oracle);
run inference (`transcribe` oracle); on success clear the buffer, trim the
text and filter hallucinations.  The `?` on the lock and on `transcribe`
returns early — before the `clear()` — so on failure the (truncated) buffer
is left in place. -/
def flushModel (buf : List Sample) (lockOk : Bool)
    (transcribe : List Sample → Except String (List Char)) : FlushOut :=
  if buf.isEmpty then
    { newBuf := buf, result := .ok [], inferenceInput := none, lockAcquired := false }
  else if lockOk then
    match transcribe (truncateBuf buf) with
    | .error e =>
        { newBuf := truncateBuf buf, result := .error (.inference e),
          inferenceInput := some (truncateBuf buf), lockAcquired := true }
    | .ok raw =>
        if (trimChars raw).isEmpty || isHallucination (trimChars raw) then
          { newBuf := [], result := .ok [],
            inferenceInput := some (truncateBuf buf), lockAcquired := true }
        else
          { newBuf := [], result := .ok [{ text := trimChars raw, is_final := true }],
            inferenceInput := some (truncateBuf buf), lockAcquired := true }
  else
    { newBuf := truncateBuf buf, result := .error (.inference "Lock poisoned"),
      inferenceInput := none, lockAcquired := false }

/-! ## SessionHandle (lib.rs lines 114–131)

The handle is a shared `AtomicBool` stop flag.  `stop()` stores `true`;
`is_active()` returns the negation of the flag.  The only operations that
touch the flag through the handle are these two. -/

/-- The operations a holder of a `SessionHandle` can perform. -/
inductive HandleOp where
  | stop
  | isActiveQuery
  deriving Repr, DecidableEq

/-- Effect of one handle operation on the stop flag: `stop()` stores `true`,
`is_active()` only reads. -/
def applyOp (flag : Bool) : HandleOp → Bool
  | .stop => true
  | .isActiveQuery => flag

/-- Run a sequence of handle operations against the stop flag. -/
def runOps (flag : Bool) (ops : List HandleOp) : Bool := ops.foldl applyOp flag

/-- `SessionHandle::stop` applied `n` times. -/
def stopTimes (flag : Bool) (n : Nat) : Bool :=
  runOps flag (List.replicate n HandleOp.stop)

/-- `SessionHandle::is_active`: negation of the stop flag. -/
def is_active (flag : Bool) : Bool := !flag

/-! ## SottoEngine::start_listening entry checks (lib.rs lines 218–246) -/

/-- `lib.rs::SottoError` (payloads are the formatted messages). -/
inductive SottoError where
  | audio (msg : String)
  | vad (msg : String)
  | transcribe (msg : String)
  | model (msg : String)
  | noModel
  | alreadyRecording
  | config (msg : String)
  deriving Repr, DecidableEq

/-- `Display` text of a `SottoError` (the `#[error(...)]` attributes). -/
def sottoErrorMessage : SottoError → String
  | .audio m => "Audio error: " ++ m
  | .vad m => "VAD error: " ++ m
  | .transcribe m => "Transcription error: " ++ m
  | .model m => "Model error: " ++ m
  | .noModel => "No model loaded. Run: sotto --setup"
  | .alreadyRecording => "Already recording"
  | .config m => "Config error: " ++ m

/-- The fields of `SottoEngineInner` that `start_listening` consults:
whether `engine` is `Some` and the single-flight `recording` flag. -/
structure EngineInner where
  engineLoaded : Bool
  recording : Bool
  deriving Repr, DecidableEq

/-- Outcome of a `start_listening` call: the engine state when it returns,
the synchronous result, and whether a worker thread was spawned. -/
structure StartOut where
  state : EngineInner
  result : Except SottoError Unit
  workerSpawned : Bool
  deriving Repr, DecidableEq

/-- `SottoEngine::start_listening` up to the `thread::spawn`: reject with
`AlreadyRecording` if the recording flag is set, then with `NoModel` if no
engine is loaded, then fail if the engine lock is poisoned
(`sessionLockOk` oracle); only after all three checks does it set the
recording flag and spawn the worker. -/
def startListening (st : EngineInner) (sessionLockOk : Bool) : StartOut :=
  if st.recording then
    { state := st, result := .error .alreadyRecording, workerSpawned := false }
  else if !st.engineLoaded then
    { state := st, result := .error .noModel, workerSpawned := false }
  else if !sessionLockOk then
    { state := st, result := .error (.transcribe "Lock poisoned"),
      workerSpawned := false }
  else
    { state := { st with recording := true }, result := .ok (), workerSpawned := true }

/-! ## download_model size fallback (dikto-core/src/models.rs lines 275–289) -/

/-- Expected byte size of a model file: `size_mb * 1024 * 1024`. -/
def expectedBytes (sizeMB : Nat) : Nat := sizeMB * 1024 * 1024

/-- The size fallback check of `download_model`: with
`tolerance = expected_size / 10`, the download fails iff
`actual_size < expected_size.saturating_sub(tolerance)` (Nat subtraction is
exactly `saturating_sub`).  Note the source checks only the lower bound. -/
def sizeCheckPasses (sizeMB actual : Nat) : Bool :=
  decide (expectedBytes sizeMB - expectedBytes sizeMB / 10 ≤ actual)

/-- The verification step for one downloaded file: if a reference SHA-256 is
recorded the hash must match (`hashMatches` oracle), otherwise the size
fallback applies. -/
def verifyDownloadAccepts (sha : List Char) (hashMatches : Bool)
    (sizeMB actual : Nat) : Bool :=
  if !sha.isEmpty then hashMatches else sizeCheckPasses sizeMB actual

/-- What the spec's words "within ±10% of the expected size" say: a
two-sided tolerance.  Defined for comparison with `sizeCheckPasses`. -/
def withinTenPercent (sizeMB actual : Nat) : Bool :=
  decide (expectedBytes sizeMB - expectedBytes sizeMB / 10 ≤ actual) &&
    decide (actual ≤ expectedBytes sizeMB + expectedBytes sizeMB / 10)

/-! ## The pipeline worker (lib.rs::run_pipeline, lines 324–454)

The worker loop is embedded as an interpreter over a list of per-iteration
inputs.  Each `LoopInput` fixes what the environment does in that iteration:
the value of the stop flag at the top of the loop, whether the wall clock
has passed `max_duration`, the samples `capture.read_samples()` returns, and
whether the 500 ms partial-progress throttle has elapsed.  The VAD, the
engine lock and the inference call are oracles in `PipelineOracles`;
`vadStep` is indexed by how many chunks have been processed so far, which
captures an arbitrary stateful classifier. -/

/-- `vad.rs::VadEvent`. -/
inductive VadEvent where
  | speechStart
  | speechContinue
  | speechEnd
  | silence
  deriving Repr, DecidableEq

/-- `lib.rs::RecordingState`. -/
inductive RecordingState where
  | idle
  | listening
  | processing
  | done (text : List Char)
  | error (message : String)
  deriving Repr, DecidableEq

/-- One callback delivered to the `TranscriptionCallback` sink:
`on_state_change`, `on_partial` (the payload is the session-buffer length
the formatted duration is computed from), `on_final_segment`, `on_silence`. -/
inductive SinkEvent where
  | stateChange (s : RecordingState)
  | progressNote (bufferedSamples : Nat)
  | finalSegment (text : List Char)
  | silenceNote
  deriving Repr, DecidableEq

/-- Environment behaviour for one iteration of the worker loop. -/
structure LoopInput where
  stopNow : Bool
  timedOut : Bool
  samples : List Sample
  throttleReady : Bool
  deriving Repr, DecidableEq

/-- Oracles for the collaborators of one pipeline run. -/
structure PipelineOracles where
  captureInitOk : Except String Unit
  vadInitOk : Except String Unit
  chunkSize : Nat
  vadStep : Nat → Except String VadEvent
  flushLockOk : Bool
  transcribeFn : List Sample → Except String (List Char)

/-- Mutable state of the worker loop. -/
structure LoopState where
  vadBuffer : List Sample
  speechDetected : Bool
  preSpeech : List Sample
  sessionBuf : List Sample
  chunkIdx : Nat
  deriving Repr, DecidableEq

/-- `pre_speech_max`: 1 second at 16 kHz. -/
def preSpeechMax : Nat := 16000

/-- The pre-speech ring append (lib.rs lines 429–436): extend, then drain
the excess from the front so at most `preSpeechMax` samples remain. -/
def preSpeechPush (buf samples : List Sample) : List Sample :=
  if (buf ++ samples).length > preSpeechMax then
    (buf ++ samples).drop ((buf ++ samples).length - preSpeechMax)
  else buf ++ samples

/-- Join the segment texts with a single space
(`.collect::<Vec<_>>().join(" ")`). -/
def joinTexts : List (List Char) → List Char
  | [] => []
  | [t] => t
  | t :: ts => t ++ (' ' :: joinTexts ts)

/-- `Display` text of a `TranscribeError` (the `#[error(...)]` attributes);
`From<TranscribeError> for SottoError` wraps it via `to_string()`. -/
def transcribeErrorMessage : TranscribeError → String
  | .modelLoad m => "Failed to load model: " ++ m
  | .inference m => "Inference failed: " ++ m
  | .notLoaded => "Model not loaded"

/-- Trace and result of the flush-and-report sequence shared by the two
flush sites of `run_pipeline`: the `on_final_segment` events and the text
(or error) the worker returns. -/
def flushEvents (fo : FlushOut) :
    List SinkEvent × Except SottoError (List Char) :=
  match fo.result with
  | .error e => ([], .error (.transcribe (transcribeErrorMessage e)))
  | .ok segs =>
      (segs.map (fun s => SinkEvent.finalSegment s.text),
       .ok (joinTexts (segs.map TranscriptSegment.text)))

/-- Result of draining the VAD staging buffer in one iteration
(the `while vad_buffer.len() >= chunk_size` loop). -/
inductive ChunkOut where
  | next (st : LoopState)
  | finish (evs : List SinkEvent) (r : Except SottoError (List Char))
      (inf : Option (List Sample))
  deriving Repr

/-- The inner chunk loop of `run_pipeline`: while a full chunk is staged,
classify it.  `SpeechStart` drains the pre-speech buffer into the session;
`SpeechEnd` after detected speech notifies silence, transitions to
`Processing`, flushes and returns; a VAD error aborts the worker. -/
def processChunks (orc : PipelineOracles) (st : LoopState) : ChunkOut :=
  if h : 0 < orc.chunkSize ∧ orc.chunkSize ≤ st.vadBuffer.length then
    let rest := st.vadBuffer.drop orc.chunkSize
    match orc.vadStep st.chunkIdx with
    | .error e => .finish [] (.error (.vad e)) none
    | .ok .speechStart =>
        processChunks orc { st with
          vadBuffer := rest, chunkIdx := st.chunkIdx + 1,
          speechDetected := true,
          sessionBuf := st.sessionBuf ++ st.preSpeech,
          preSpeech := [] }
    | .ok .speechEnd =>
        if st.speechDetected then
          let fo := flushModel st.sessionBuf orc.flushLockOk orc.transcribeFn
          let p := flushEvents fo
          .finish (SinkEvent.silenceNote ::
              SinkEvent.stateChange .processing :: p.1) p.2 fo.inferenceInput
        else
          processChunks orc { st with vadBuffer := rest, chunkIdx := st.chunkIdx + 1 }
    | .ok .speechContinue =>
        processChunks orc { st with vadBuffer := rest, chunkIdx := st.chunkIdx + 1 }
    | .ok .silence =>
        processChunks orc { st with vadBuffer := rest, chunkIdx := st.chunkIdx + 1 }
  else
    .next st
termination_by st.vadBuffer.length
decreasing_by
  all_goals simp only [List.length_drop]; omega

/-- Outcome of running the worker loop on a finite input list: either the
loop ended (by stop/timeout/`SpeechEnd`/error) with its trace, result and
inference input, or the supplied inputs ran out mid-loop. -/
inductive RunOut where
  | finished (evs : List SinkEvent) (r : Except SottoError (List Char))
      (inf : Option (List Sample))
  | ranOut (evs : List SinkEvent) (st : LoopState)
  deriving Repr

/-- The flush-on-stop path after the loop (lib.rs lines 439–453). -/
def postLoopFlush (orc : PipelineOracles) (st : LoopState) :
    List SinkEvent × Except SottoError (List Char) × Option (List Sample) :=
  (SinkEvent.stateChange .processing ::
      (flushEvents (flushModel st.sessionBuf orc.flushLockOk orc.transcribeFn)).1,
    (flushEvents (flushModel st.sessionBuf orc.flushLockOk orc.transcribeFn)).2,
    (flushModel st.sessionBuf orc.flushLockOk orc.transcribeFn).inferenceInput)

/-- The worker loop of `run_pipeline`: check stop flag and timeout, poll the
mic (empty read sleeps and re-polls), stage samples for the VAD and drain
complete chunks, then either feed the session (emitting a throttled partial
notification) or ring-buffer the audio as pre-speech. -/
def runLoop (orc : PipelineOracles) (st : LoopState) :
    List LoopInput → RunOut
  | [] => .ranOut [] st
  | i :: rest =>
    if i.stopNow || i.timedOut then
      .finished (postLoopFlush orc st).1 (postLoopFlush orc st).2.1
        (postLoopFlush orc st).2.2
    else if i.samples.isEmpty then
      runLoop orc st rest
    else
      match processChunks orc { st with vadBuffer := st.vadBuffer ++ i.samples } with
      | .finish evs r inf => .finished evs r inf
      | .next st1 =>
        if st1.speechDetected then
          match runLoop orc { st1 with sessionBuf := st1.sessionBuf ++ i.samples } rest with
          | .finished evs2 r inf =>
              .finished ((if i.throttleReady
                then [SinkEvent.progressNote (st1.sessionBuf ++ i.samples).length]
                else []) ++ evs2) r inf
          | .ranOut evs2 st3 =>
              .ranOut ((if i.throttleReady
                then [SinkEvent.progressNote (st1.sessionBuf ++ i.samples).length]
                else []) ++ evs2) st3
        else
          runLoop orc { st1 with preSpeech := preSpeechPush st1.preSpeech i.samples } rest

/-- The initial worker state: all buffers empty, no speech detected. -/
def initState : LoopState :=
  { vadBuffer := [], speechDetected := false, preSpeech := [],
    sessionBuf := [], chunkIdx := 0 }

/-- `run_pipeline` as observed through the sink: emit `Listening`, start
capture, construct the VAD (each can fail), then run the loop.  The second
component is the worker's return value (`none` when the input list ran out),
the third the samples handed to inference. -/
def runPipelineModel (orc : PipelineOracles) (inputs : List LoopInput) :
    List SinkEvent × Option (Except SottoError (List Char)) × Option (List Sample) :=
  match orc.captureInitOk with
  | .error e => ([.stateChange .listening], some (.error (.audio e)), none)
  | .ok _ =>
    match orc.vadInitOk with
    | .error e => ([.stateChange .listening], some (.error (.vad e)), none)
    | .ok _ =>
      match runLoop orc initState inputs with
      | .finished evs r inf => (SinkEvent.stateChange .listening :: evs, some r, inf)
      | .ranOut evs _ => (SinkEvent.stateChange .listening :: evs, none, none)

/-- The terminal `on_state_change` the spawned closure fires from the
worker's result (lib.rs lines 266–280). -/
def terminalEvent : Except SottoError (List Char) → SinkEvent
  | .ok text => .stateChange (.done text)
  | .error e => .stateChange (.error (sottoErrorMessage e))

/-- Full sink trace of one session: the pipeline's callbacks followed by the
single terminal state change (absent only when the inputs ran out). -/
def runWorkerModel (orc : PipelineOracles) (inputs : List LoopInput) :
    List SinkEvent :=
  match (runPipelineModel orc inputs).2.1 with
  | none => (runPipelineModel orc inputs).1
  | some r => (runPipelineModel orc inputs).1 ++ [terminalEvent r]

end Dikto

namespace Dikto

/-! ## Helper lemmas about flush -/

theorem truncateBuf_length_le (buf : List Sample) :
    (truncateBuf buf).length ≤ MAX_SAMPLES ∨ truncateBuf buf = buf := by
  unfold truncateBuf
  split
  · left; simp [List.length_take]
  · right; rfl

theorem truncateBuf_length_le' (buf : List Sample) :
    (truncateBuf buf).length ≤ MAX_SAMPLES := by
  unfold truncateBuf
  split
  · simp [List.length_take]
  · omega

theorem truncateBuf_ne_nil (buf : List Sample) (h : buf ≠ []) :
    truncateBuf buf ≠ [] := by
  unfold truncateBuf
  split
  · have hlen : 0 < buf.length := List.length_pos.mpr h
    intro hc
    have : (buf.take MAX_SAMPLES).length = 0 := by rw [hc]; rfl
    rw [List.length_take] at this
    have : MAX_SAMPLES = 0 ∨ buf.length = 0 := by omega
    rcases this with h1 | h1
    · exact absurd h1 (by decide)
    · omega
  · exact h

theorem flushModel_inferenceInput_eq (buf : List Sample) (lockOk : Bool)
    (tr : List Sample → Except String (List Char)) (sent : List Sample)
    (h : (flushModel buf lockOk tr).inferenceInput = some sent) :
    sent = truncateBuf buf := by
  unfold flushModel at h
  split at h
  · simp at h
  · split at h
    · split at h <;> simp_all <;> split at h <;> simp_all
    · simp at h

/-! ## Claim theorems for the flush contract -/

/-- C1, counterexample: a one-sample buffer flushed against an inference
engine that fails leaves the buffer intact — the `?` on `transcribe`
propagates the error before `audio_buffer.clear()` runs, so the claim that
the buffer is cleared on failure is false. -/
theorem c1_flush_clear_counterexample :
    ([(0 : Sample)] ≠ ([] : List Sample)) ∧
    (flushModel [(0 : Sample)] true (fun _ => .error "inference failed")).result
      = .error (.inference "inference failed") ∧
    (flushModel [(0 : Sample)] true (fun _ => .error "inference failed")).newBuf
      = [(0 : Sample)] := by
  refine ⟨by simp, rfl, rfl⟩

/-- C1 (amended): for every flush of a non-empty buffer, on success the
accumulation buffer is cleared; on failure the error propagates but the
buffer is NOT cleared — it still holds the (possibly truncated) audio. -/
theorem c1_flush_clear_amended (buf : List Sample) (lockOk : Bool)
    (tr : List Sample → Except String (List Char))
    (segs : List TranscriptSegment) (e : TranscribeError) (h : buf ≠ []) :
    ((flushModel buf lockOk tr).result = .ok segs →
      (flushModel buf lockOk tr).newBuf = []) ∧
    ((flushModel buf lockOk tr).result = .error e →
      (flushModel buf lockOk tr).newBuf = truncateBuf buf ∧
        (flushModel buf lockOk tr).newBuf ≠ []) := by
  have hne := truncateBuf_ne_nil buf h
  unfold flushModel
  have hbuf : buf.isEmpty = false := by simp [List.isEmpty_iff, h]
  rw [hbuf]
  simp only [Bool.false_eq_true, if_false]
  split
  · split
    · exact ⟨fun hc => by simp_all, fun _ => ⟨rfl, hne⟩⟩
    · split
      · exact ⟨fun _ => rfl, fun hc => by simp_all⟩
      · exact ⟨fun _ => rfl, fun hc => by simp_all⟩
  · exact ⟨fun hc => by simp_all, fun _ => ⟨rfl, hne⟩⟩

theorem c1_flush_clear_amended_witness :
    ((flushModel [(0 : Sample)] true (fun _ => .ok "hi".toList)).result
        = .ok [{ text := "hi".toList, is_final := true }] →
      (flushModel [(0 : Sample)] true (fun _ => .ok "hi".toList)).newBuf = []) ∧
    ((flushModel [(0 : Sample)] true (fun _ => .ok "hi".toList)).result
        = .error (.inference "x") →
      (flushModel [(0 : Sample)] true (fun _ => .ok "hi".toList)).newBuf
          = truncateBuf [(0 : Sample)] ∧
        (flushModel [(0 : Sample)] true (fun _ => .ok "hi".toList)).newBuf ≠ []) :=
  c1_flush_clear_amended [(0 : Sample)] true (fun _ => .ok "hi".toList)
    [{ text := "hi".toList, is_final := true }] (.inference "x") (by simp)

/-- C4: at flush time a buffer longer than `4 * 60 * 16000` samples is
truncated to exactly that many samples (the leading ones — trailing excess
is dropped) before inference is invoked, and no inference call ever
receives more than `MAX_SAMPLES` samples. -/
theorem c4_flush_truncation (buf buf2 : List Sample) (lockOk : Bool)
    (tr : List Sample → Except String (List Char)) (sent : List Sample)
    (h : MAX_SAMPLES < buf.length) :
    (lockOk = true →
      (flushModel buf lockOk tr).inferenceInput = some (buf.take MAX_SAMPLES)) ∧
    (buf.take MAX_SAMPLES).length = MAX_SAMPLES ∧
    ((flushModel buf2 lockOk tr).inferenceInput = some sent →
      sent.length ≤ MAX_SAMPLES) := by
  refine ⟨?_, ?_, ?_⟩
  · intro hl
    subst hl
    have hbuf : buf.isEmpty = false := by
      simp [List.isEmpty_iff]
      intro hc
      rw [hc] at h
      simp at h
    have htr : truncateBuf buf = buf.take MAX_SAMPLES := by
      unfold truncateBuf
      rw [if_pos h]
    unfold flushModel
    rw [hbuf]
    simp only [Bool.false_eq_true, if_false, if_true, htr]
    split <;> simp_all <;> split <;> simp
  · rw [List.length_take]
    omega
  · intro hs
    have := flushModel_inferenceInput_eq buf2 lockOk tr sent hs
    subst this
    exact truncateBuf_length_le' buf2

theorem c4_flush_truncation_witness :
    ((true : Bool) = true →
      (flushModel (List.replicate (MAX_SAMPLES + 1) (0 : Sample)) true
          (fun _ => .ok "hi".toList)).inferenceInput
        = some ((List.replicate (MAX_SAMPLES + 1) (0 : Sample)).take MAX_SAMPLES)) ∧
    ((List.replicate (MAX_SAMPLES + 1) (0 : Sample)).take MAX_SAMPLES).length
      = MAX_SAMPLES ∧
    ((flushModel [(1 : Sample)] true
          (fun _ => .ok "hi".toList)).inferenceInput = some [(1 : Sample)] →
      [(1 : Sample)].length ≤ MAX_SAMPLES) :=
  c4_flush_truncation (List.replicate (MAX_SAMPLES + 1) (0 : Sample)) [(1 : Sample)]
    true (fun _ => .ok "hi".toList) [(1 : Sample)]
    (by simp [List.length_replicate])

/-- C8: flushing an empty session buffer returns an empty segment list,
invokes no inference, and never touches the engine lock. -/
theorem c8_flush_empty_noop (lockOk : Bool)
    (tr : List Sample → Except String (List Char)) :
    flushModel [] lockOk tr
      = { newBuf := [], result := .ok [], inferenceInput := none,
          lockAcquired := false } := rfl

end Dikto

namespace Dikto

/-! ## Claim theorems: hallucination filter, entry checks, handle, size check -/

/-- C5: the hallucination filter discards a text iff, after trimming, it
both starts with `[` and ends with `]`, or both starts with `(` and ends
with `)`; the listed examples behave as specified; and a flush whose
trimmed inference output is empty or filtered returns an empty segment
list, while any other output yields exactly one final segment. -/
theorem c5_hallucination_filter (l : List Char) (buf : List Sample)
    (tr : List Sample → Except String (List Char)) (raw : List Char)
    (hbuf : buf ≠ []) (htr : tr (truncateBuf buf) = .ok raw) :
    (isHallucination l = true ↔
      (((trimChars l).head? = some '[' ∧ (trimChars l).getLast? = some ']') ∨
        ((trimChars l).head? = some '(' ∧ (trimChars l).getLast? = some ')'))) ∧
    isHallucination "[BLANK_AUDIO]".toList = true ∧
    isHallucination "(music)".toList = true ∧
    isHallucination "  [MUSIC]  ".toList = true ∧
    isHallucination "Hello world".toList = false ∧
    isHallucination "This is [a] test".toList = false ∧
    ((trimChars raw = [] ∨ isHallucination (trimChars raw) = true) →
      (flushModel buf true tr).result = .ok []) ∧
    ((trimChars raw ≠ [] ∧ isHallucination (trimChars raw) = false) →
      (flushModel buf true tr).result
        = .ok [{ text := trimChars raw, is_final := true }]) := by
  have hbuf' : buf.isEmpty = false := by simp [List.isEmpty_iff, hbuf]
  refine ⟨?_, by decide, by decide, by decide, by decide, by decide, ?_, ?_⟩
  · simp [isHallucination, Bool.or_eq_true, Bool.and_eq_true, beq_iff_eq]
  · intro hdisc
    unfold flushModel
    rw [hbuf']
    simp only [Bool.false_eq_true, if_false, if_true, htr]
    have : ((trimChars raw).isEmpty || isHallucination (trimChars raw)) = true := by
      rcases hdisc with h1 | h1
      · simp [h1]
      · simp [h1]
    rw [this]
    rfl
  · intro hkeep
    unfold flushModel
    rw [hbuf']
    simp only [Bool.false_eq_true, if_false, if_true, htr]
    have : ((trimChars raw).isEmpty || isHallucination (trimChars raw)) = false := by
      simp [List.isEmpty_iff, hkeep.1, hkeep.2]
    rw [this]
    simp

theorem c5_hallucination_filter_witness :
    ((isHallucination "(silence)".toList = true ↔
      (((trimChars "(silence)".toList).head? = some '[' ∧
          (trimChars "(silence)".toList).getLast? = some ']') ∨
        ((trimChars "(silence)".toList).head? = some '(' ∧
          (trimChars "(silence)".toList).getLast? = some ')'))) ∧
    isHallucination "[BLANK_AUDIO]".toList = true ∧
    isHallucination "(music)".toList = true ∧
    isHallucination "  [MUSIC]  ".toList = true ∧
    isHallucination "Hello world".toList = false ∧
    isHallucination "This is [a] test".toList = false ∧
    ((trimChars "hi".toList = [] ∨ isHallucination (trimChars "hi".toList) = true) →
      (flushModel [(0 : Sample)] true (fun _ => .ok "hi".toList)).result = .ok []) ∧
    ((trimChars "hi".toList ≠ [] ∧ isHallucination (trimChars "hi".toList) = false) →
      (flushModel [(0 : Sample)] true (fun _ => .ok "hi".toList)).result
        = .ok [{ text := trimChars "hi".toList, is_final := true }])) :=
  c5_hallucination_filter "(silence)".toList [(0 : Sample)]
    (fun _ => .ok "hi".toList) "hi".toList (by simp) rfl

/-- C6: `start_listening` while the single-flight recording flag is set
returns `AlreadyRecording`, spawns no worker and leaves the engine state
untouched; with the flag clear but no model loaded it likewise returns
`NoModel` synchronously before spawning any background work. -/
theorem c6_start_listening_guards (st : EngineInner) (lockOk : Bool) :
    (st.recording = true →
      startListening st lockOk
        = { state := st, result := .error .alreadyRecording,
            workerSpawned := false }) ∧
    (st.recording = false → st.engineLoaded = false →
      startListening st lockOk
        = { state := st, result := .error .noModel, workerSpawned := false }) := by
  constructor
  · intro h1
    simp [startListening, h1]
  · intro h1 h2
    simp [startListening, h1, h2]

theorem c6_start_listening_guards_witness :
    startListening { engineLoaded := false, recording := false } true
      = { state := { engineLoaded := false, recording := false },
          result := .error .noModel, workerSpawned := false } :=
  (c6_start_listening_guards { engineLoaded := false, recording := false } true).2
    rfl rfl

theorem applyOp_true (op : HandleOp) : applyOp true op = true := by
  cases op <;> rfl

theorem runOps_true (ops : List HandleOp) : runOps true ops = true := by
  induction ops with
  | nil => rfl
  | cons op ops ih =>
      simp only [runOps, List.foldl_cons, applyOp_true] at ih ⊢
      exact ih

/-- C7: calling `stop()` any number `n ≥ 1` of times leaves the
cancellation flag `true` and `is_active()` `false`; once `true` the flag is
never reset by any sequence of handle operations; and `is_active` is the
negation of the flag. -/
theorem c7_stop_idempotent (flag : Bool) (n : Nat) (ops : List HandleOp)
    (h : 1 ≤ n) :
    stopTimes flag n = true ∧
    is_active (stopTimes flag n) = false ∧
    runOps true ops = true ∧
    is_active flag = !flag := by
  obtain ⟨m, rfl⟩ : ∃ m, n = m + 1 := ⟨n - 1, by omega⟩
  have hstop : stopTimes flag (m + 1) = true := by
    unfold stopTimes
    rw [List.replicate_succ]
    simp only [runOps, List.foldl_cons]
    exact runOps_true _
  exact ⟨hstop, by rw [hstop]; rfl, runOps_true ops, rfl⟩

theorem c7_stop_idempotent_witness :
    stopTimes false 2 = true ∧
    is_active (stopTimes false 2) = false ∧
    runOps true [HandleOp.isActiveQuery] = true ∧
    is_active false = !false :=
  c7_stop_idempotent false 2 [HandleOp.isActiveQuery] (by decide)

/-- C9, counterexample: the fallback size check of `download_model` accepts
a 2 MiB file for an expected size of 1 MiB (it only enforces the lower
bound `actual ≥ expected - expected/10`), so "accepted iff within ±10% of
the expected size" is false: this file is accepted yet more than 10% above
the expected size. -/
theorem c9_size_check_counterexample :
    verifyDownloadAccepts [] false 1 2097152 = true ∧
    withinTenPercent 1 2097152 = false := by
  decide

/-- C9 (amended): for a model file with no recorded SHA-256 hash, the
download is accepted iff the byte size is at least
`expected - expected / 10` where `expected = size_mb * 1024 * 1024`: only
undersized files (more than 10% below the expected size) are rejected;
there is no upper bound. -/
theorem c9_size_check_amended (sizeMB actual : Nat) (hashMatches : Bool) :
    verifyDownloadAccepts [] hashMatches sizeMB actual
      = sizeCheckPasses sizeMB actual ∧
    (sizeCheckPasses sizeMB actual = true ↔
      expectedBytes sizeMB - expectedBytes sizeMB / 10 ≤ actual) := by
  refine ⟨rfl, ?_⟩
  simp [sizeCheckPasses]

end Dikto

namespace Dikto

/-! ## The pre-speech ring buffer keeps the most recent samples -/

/-- The last `n` elements of a list (what remains after the FIFO trim). -/
def lastN (n : Nat) (l : List Sample) : List Sample := l.drop (l.length - n)

theorem lastN_eq_reverse_take (n : Nat) (l : List Sample) :
    lastN n l = (l.reverse.take n).reverse := by
  rw [List.reverse_take, List.reverse_reverse, List.length_reverse]
  rfl

theorem lastN_length_le (n : Nat) (l : List Sample) : (lastN n l).length ≤ n := by
  simp only [lastN, List.length_drop]
  omega

theorem lastN_of_length_le (n : Nat) (l : List Sample) (h : l.length ≤ n) :
    lastN n l = l := by
  unfold lastN
  rw [Nat.sub_eq_zero_of_le h, List.drop_zero]

theorem take_append_take (n : Nat) (x y : List Sample) :
    (x ++ y.take n).take n = (x ++ y).take n := by
  rw [List.take_append_eq_append_take, List.take_append_eq_append_take,
    List.take_take, min_eq_left (Nat.sub_le _ _)]

theorem lastN_append_absorb (n : Nat) (a b : List Sample) :
    lastN n (lastN n a ++ b) = lastN n (a ++ b) := by
  rw [lastN_eq_reverse_take n (lastN n a ++ b), lastN_eq_reverse_take n (a ++ b)]
  congr 1
  rw [List.reverse_append, List.reverse_append,
    lastN_eq_reverse_take n a, List.reverse_reverse]
  exact take_append_take n b.reverse a.reverse

/-- The push of lib.rs lines 431–435 keeps exactly the most recent
`preSpeechMax` samples of the concatenation. -/
theorem preSpeechPush_eq_lastN (buf samples : List Sample) :
    preSpeechPush buf samples = lastN preSpeechMax (buf ++ samples) := by
  unfold preSpeechPush lastN
  split
  · rfl
  · next h =>
      have : (buf ++ samples).length - preSpeechMax = 0 := by omega
      rw [this, List.drop_zero]

theorem preSpeechPush_length_le (buf samples : List Sample) :
    (preSpeechPush buf samples).length ≤ preSpeechMax := by
  rw [preSpeechPush_eq_lastN]
  exact lastN_length_le _ _

end Dikto

namespace Dikto

/-! ## Inner chunk-loop lemmas -/

/-- Events are only emitted by the chunk loop when it terminates the
worker; when it hands control back (`next`), and the VAD never reported
`SpeechStart`, the speech flag and both audio buffers are untouched. -/
theorem processChunks_next_noStart (orc : PipelineOracles)
    (hns : ∀ n ev, orc.vadStep n = .ok ev → ev ≠ VadEvent.speechStart) :
    ∀ st st1, processChunks orc st = .next st1 →
      st1.speechDetected = st.speechDetected ∧ st1.preSpeech = st.preSpeech ∧
        st1.sessionBuf = st.sessionBuf := by
  intro st
  induction st using processChunks.induct orc with
  | case1 st hc e he =>
      intro st1 h
      unfold processChunks at h
      rw [dif_pos hc] at h
      simp only [he] at h
      exact ChunkOut.noConfusion h
  | case2 st hc rest he ih =>
      exact absurd rfl (hns st.chunkIdx VadEvent.speechStart he)
  | case3 st hc he hsd =>
      intro st1 h
      unfold processChunks at h
      rw [dif_pos hc] at h
      simp only [he, hsd, if_true] at h
      exact ChunkOut.noConfusion h
  | case4 st hc rest he hsd ih =>
      intro st1 h
      unfold processChunks at h
      rw [dif_pos hc] at h
      simp only [he] at h
      rw [if_neg hsd] at h
      exact ih st1 h
  | case5 st hc rest he ih =>
      intro st1 h
      unfold processChunks at h
      rw [dif_pos hc] at h
      simp only [he] at h
      exact ih st1 h
  | case6 st hc rest he ih =>
      intro st1 h
      unfold processChunks at h
      rw [dif_pos hc] at h
      simp only [he] at h
      exact ih st1 h
  | case7 st hc =>
      intro st1 h
      unfold processChunks at h
      rw [dif_neg hc] at h
      cases h
      exact ⟨rfl, rfl, rfl⟩

end Dikto

namespace Dikto

/-- All events in a list are `on_final_segment` notifications. -/
def finalsOnly (evs : List SinkEvent) : Prop :=
  ∀ e ∈ evs, ∃ t, e = SinkEvent.finalSegment t

theorem flushEvents_finals (fo : FlushOut) : finalsOnly (flushEvents fo).1 := by
  obtain ⟨nb, res, ii, la⟩ := fo
  rcases res with e | segs
  · intro ev hev
    exact absurd hev (List.not_mem_nil ev)
  · intro ev hev
    obtain ⟨s, _, rfl⟩ := List.mem_map.mp hev
    exact ⟨s.text, rfl⟩

theorem flushEvents_error_nil (fo : FlushOut) (e : SottoError)
    (h : (flushEvents fo).2 = .error e) : (flushEvents fo).1 = [] := by
  obtain ⟨nb, res, ii, la⟩ := fo
  rcases res with e' | segs
  · rfl
  · exact Except.noConfusion h

/-- Shape of the trace when the chunk loop itself ends the session: either
a VAD processing error with no events, or the `SpeechEnd` path — silence
notice, `Processing`, then only final segments (none when the flush
failed). -/
theorem processChunks_finish_shape (orc : PipelineOracles) :
    ∀ st evs r inf, processChunks orc st = .finish evs r inf →
      (evs = [] ∧ ∃ e, r = .error e) ∨
      (∃ fins, finalsOnly fins ∧
        evs = SinkEvent.silenceNote :: SinkEvent.stateChange .processing :: fins ∧
        ((∃ e, r = .error e) → fins = [])) := by
  intro st
  induction st using processChunks.induct orc with
  | case1 st hc e he =>
      intro evs r inf h
      unfold processChunks at h
      rw [dif_pos hc] at h
      simp only [he] at h
      cases h
      exact Or.inl ⟨rfl, ⟨_, rfl⟩⟩
  | case2 st hc rest he ih =>
      intro evs r inf h
      unfold processChunks at h
      rw [dif_pos hc] at h
      simp only [he] at h
      exact ih evs r inf h
  | case3 st hc he hsd =>
      intro evs r inf h
      unfold processChunks at h
      rw [dif_pos hc] at h
      simp only [he, hsd, if_true] at h
      cases h
      refine Or.inr ⟨(flushEvents (flushModel st.sessionBuf orc.flushLockOk
        orc.transcribeFn)).1, flushEvents_finals _, rfl, ?_⟩
      rintro ⟨e, he2⟩
      exact flushEvents_error_nil _ e he2
  | case4 st hc rest he hsd ih =>
      intro evs r inf h
      unfold processChunks at h
      rw [dif_pos hc] at h
      simp only [he] at h
      rw [if_neg hsd] at h
      exact ih evs r inf h
  | case5 st hc rest he ih =>
      intro evs r inf h
      unfold processChunks at h
      rw [dif_pos hc] at h
      simp only [he] at h
      exact ih evs r inf h
  | case6 st hc rest he ih =>
      intro evs r inf h
      unfold processChunks at h
      rw [dif_pos hc] at h
      simp only [he] at h
      exact ih evs r inf h
  | case7 st hc =>
      intro evs r inf h
      unfold processChunks at h
      rw [dif_neg hc] at h
      exact ChunkOut.noConfusion h

/-- When the VAD neither errors nor reports `SpeechStart`, the chunk loop
never ends the session. -/
theorem processChunks_noSpeech_next (orc : PipelineOracles)
    (hns : ∀ n ev, orc.vadStep n = .ok ev → ev ≠ VadEvent.speechStart)
    (hne : ∀ n e, orc.vadStep n ≠ .error e) :
    ∀ st, st.speechDetected = false → ∃ st1, processChunks orc st = .next st1 := by
  intro st
  induction st using processChunks.induct orc with
  | case1 st hc e he => exact absurd he (hne st.chunkIdx e)
  | case2 st hc rest he ih =>
      exact absurd rfl (hns st.chunkIdx VadEvent.speechStart he)
  | case3 st hc he hsd =>
      intro hf
      rw [hf] at hsd
      exact absurd hsd (by simp)
  | case4 st hc rest he hsd ih =>
      intro hf
      obtain ⟨st1, h1⟩ := ih hf
      refine ⟨st1, ?_⟩
      unfold processChunks
      rw [dif_pos hc]
      simp only [he]
      rw [if_neg hsd]
      exact h1
  | case5 st hc rest he ih =>
      intro hf
      obtain ⟨st1, h1⟩ := ih hf
      refine ⟨st1, ?_⟩
      unfold processChunks
      rw [dif_pos hc]
      simp only [he]
      exact h1
  | case6 st hc rest he ih =>
      intro hf
      obtain ⟨st1, h1⟩ := ih hf
      refine ⟨st1, ?_⟩
      unfold processChunks
      rw [dif_pos hc]
      simp only [he]
      exact h1
  | case7 st hc =>
      intro hf
      refine ⟨st, ?_⟩
      unfold processChunks
      rw [dif_neg hc]

end Dikto

namespace Dikto

/-! ## Outer-loop trace shape -/

theorem postLoopFlush_shape (orc : PipelineOracles) (st : LoopState) :
    ∃ fins, finalsOnly fins ∧
      (postLoopFlush orc st).1 = SinkEvent.stateChange .processing :: fins ∧
      ((∃ e, (postLoopFlush orc st).2.1 = .error e) → fins = []) := by
  refine ⟨(flushEvents (flushModel st.sessionBuf orc.flushLockOk
    orc.transcribeFn)).1, flushEvents_finals _, rfl, ?_⟩
  rintro ⟨e, he⟩
  exact flushEvents_error_nil _ e he

theorem throttle_events_progress (b : Bool) (n : Nat) :
    ∀ e ∈ (if b then [SinkEvent.progressNote n] else []), ∃ m,
      e = SinkEvent.progressNote m := by
  cases b
  · intro e he
    exact absurd he (List.not_mem_nil e)
  · intro e he
    simp only [if_true, List.mem_singleton] at he
    exact ⟨n, he⟩

/-- Trace shape of any terminated worker-loop run: a block of throttled
progress notifications, then either nothing (an abort before the flush
stage, always an error), or an optional silence notice, the `Processing`
transition and the final segments (none when the flush failed). -/
theorem runLoop_finished_shape (orc : PipelineOracles) :
    ∀ inputs st evs r inf, runLoop orc st inputs = .finished evs r inf →
      ∃ ps tail, evs = ps ++ tail ∧
        (∀ e ∈ ps, ∃ n, e = SinkEvent.progressNote n) ∧
        ((tail = [] ∧ ∃ e, r = .error e) ∨
         (∃ sil fins, (sil = [] ∨ sil = [SinkEvent.silenceNote]) ∧
           finalsOnly fins ∧
           tail = sil ++ SinkEvent.stateChange .processing :: fins ∧
           ((∃ e, r = .error e) → fins = []))) := by
  intro inputs
  induction inputs with
  | nil =>
      intro st evs r inf h
      exact RunOut.noConfusion h
  | cons i rest ih =>
      intro st evs r inf h
      rw [runLoop] at h
      split at h
      · -- stop or timeout: the post-loop flush
        injection h with h1 h2 h3
        obtain ⟨fins, hfins, hp, herr⟩ := postLoopFlush_shape orc st
        refine ⟨[], evs, by simp, by simp, Or.inr ⟨[], fins, Or.inl rfl, hfins, ?_, ?_⟩⟩
        · rw [← h1, hp]
          rfl
        · intro he
          exact herr (by rw [h2]; exact he)
      · split at h
        · -- no samples available: sleep and re-poll
          exact ih st evs r inf h
        · -- samples staged and chunked
          split at h
          · -- the chunk loop ended the session
            next evs1 r1 inf1 hpc =>
              injection h with h1 h2 h3
              subst h1 h2 h3
              rcases processChunks_finish_shape orc _ evs1 r1 inf1 hpc with
                ⟨hnil, e, herr⟩ | ⟨fins, hfins, hevs, herr⟩
              · exact ⟨[], [], by simp [hnil], by simp, Or.inl ⟨rfl, e, herr⟩⟩
              · exact ⟨[], evs1, by simp, by simp,
                  Or.inr ⟨[SinkEvent.silenceNote], fins, Or.inr rfl, hfins, hevs, herr⟩⟩
          · next st1 hpc =>
              split at h
              · -- speech already detected: feed session, maybe emit progress
                split at h
                · next evs2 r2 inf2 hr =>
                    injection h with h1 h2 h3
                    obtain ⟨ps2, tail, he2, hps2, htail⟩ := ih _ evs2 r2 inf2 hr
                    subst h2 h3
                    refine ⟨(if i.throttleReady
                        then [SinkEvent.progressNote (st1.sessionBuf ++ i.samples).length]
                        else []) ++ ps2, tail, ?_, ?_, htail⟩
                    · rw [← h1, he2, List.append_assoc]
                    · intro e he
                      rcases List.mem_append.mp he with h4 | h4
                      · exact throttle_events_progress _ _ e h4
                      · exact hps2 e h4
                · next evs2 st3 hr => exact RunOut.noConfusion h
              · -- speech not yet detected: ring-buffer the samples
                exact ih _ evs r inf h

end Dikto

namespace Dikto

/-- When the VAD never reports `SpeechStart` (and never errors), a
terminated run flushes an empty session: the trace after the loop is just
the `Processing` transition, the result is the empty text, and inference is
never invoked. -/
theorem runLoop_noSpeech_finished (orc : PipelineOracles)
    (hns : ∀ n ev, orc.vadStep n = .ok ev → ev ≠ VadEvent.speechStart)
    (hne : ∀ n e, orc.vadStep n ≠ .error e) :
    ∀ inputs st evs r inf, st.speechDetected = false → st.sessionBuf = [] →
      runLoop orc st inputs = .finished evs r inf →
      evs = [SinkEvent.stateChange .processing] ∧ r = .ok [] ∧ inf = none := by
  intro inputs
  induction inputs with
  | nil =>
      intro st evs r inf _ _ h
      exact RunOut.noConfusion h
  | cons i rest ih =>
      intro st evs r inf hsd hsb h
      have hpost : postLoopFlush orc st
          = ([SinkEvent.stateChange .processing], .ok [], none) := by
        unfold postLoopFlush
        rw [hsb]
        rfl
      rw [runLoop] at h
      split at h
      · rw [hpost] at h
        injection h with h1 h2 h3
        exact ⟨h1.symm, h2.symm, h3.symm⟩
      · split at h
        · exact ih st evs r inf hsd hsb h
        · obtain ⟨stn, hn⟩ := processChunks_noSpeech_next orc hns hne
            { st with vadBuffer := st.vadBuffer ++ i.samples } hsd
          split at h
          · next evs1 r1 inf1 hpc =>
              rw [hn] at hpc
              exact ChunkOut.noConfusion hpc
          · next st1 hpc =>
              obtain ⟨hsd1, hpre1, hsb1⟩ := processChunks_next_noStart orc hns _ st1 hpc
              have hsdf : st1.speechDetected = false := by rw [hsd1]; exact hsd
              have hsbf : st1.sessionBuf = [] := by rw [hsb1]; exact hsb
              rw [hsdf] at h
              simp only [Bool.false_eq_true, if_false] at h
              exact ih (LoopState.mk st1.vadBuffer false
                (preSpeechPush st1.preSpeech i.samples) st1.sessionBuf st1.chunkIdx)
                evs r inf rfl hsbf h

/-- While no speech has been detected, the pre-speech ring buffer equals
the `preSpeechMax`-suffix of all captured audio so far. -/
theorem runLoop_ranOut_preSpeech (orc : PipelineOracles)
    (hns : ∀ n ev, orc.vadStep n = .ok ev → ev ≠ VadEvent.speechStart) :
    ∀ inputs st evs st1, st.speechDetected = false →
      st.preSpeech.length ≤ preSpeechMax →
      runLoop orc st inputs = .ranOut evs st1 →
      st1.preSpeech = lastN preSpeechMax
        (st.preSpeech ++ (inputs.map LoopInput.samples).flatten) ∧
      st1.speechDetected = false := by
  intro inputs
  induction inputs with
  | nil =>
      intro st evs st1 hsd hlen h
      injection h with h1 h2
      subst h2
      rw [List.map_nil, List.flatten_nil, List.append_nil,
        lastN_of_length_le _ _ hlen]
      exact ⟨rfl, hsd⟩
  | cons i rest ih =>
      intro st evs st1 hsd hlen h
      rw [runLoop] at h
      split at h
      · exact RunOut.noConfusion h
      · split at h
        · next hemp =>
            have hsam : i.samples = [] := List.isEmpty_iff.mp hemp
            have := ih st evs st1 hsd hlen h
            rw [List.map_cons, List.flatten_cons, hsam, List.nil_append]
            exact this
        · split at h
          · next evs1 r1 inf1 hpc => exact RunOut.noConfusion h
          · next stn hpc =>
              obtain ⟨hsd1, hpre1, hsb1⟩ := processChunks_next_noStart orc hns _ stn hpc
              have hsdf : stn.speechDetected = false := by rw [hsd1]; exact hsd
              have hpref : stn.preSpeech = st.preSpeech := by rw [hpre1]
              rw [hsdf] at h
              simp only [Bool.false_eq_true, if_false] at h
              have hlen2 : (preSpeechPush stn.preSpeech i.samples).length
                  ≤ preSpeechMax := preSpeechPush_length_le _ _
              have := ih _ evs st1 rfl hlen2 h
              obtain ⟨hA, hB⟩ := this
              refine ⟨?_, hB⟩
              rw [hA]
              dsimp only
              rw [hpref, preSpeechPush_eq_lastN, lastN_append_absorb,
                List.map_cons, List.flatten_cons, List.append_assoc]

end Dikto

namespace Dikto

/-- Terminal sink events: `on_state_change(Done)` / `on_state_change(Error)`. -/
def isTerminal : SinkEvent → Bool
  | .stateChange (.done _) => true
  | .stateChange (.error _) => true
  | _ => false

/-- Parse the trace segment after `Processing`: final segments, then exactly
one terminal state change, then nothing. -/
def checkFinals : List SinkEvent → Bool
  | .finalSegment _ :: rest => checkFinals rest
  | [ .stateChange (.done _)] => true
  | [ .stateChange (.error _)] => true
  | _ => false

/-- Parse the trace after `Listening`: throttled progress notifications,
then an optional silence notice immediately followed by `Processing`, then
`checkFinals`; a bare terminal without `Processing` is allowed only for an
`Error` (the code skips `Processing` when it aborts before the flush
stage). -/
def checkProgress : List SinkEvent → Bool
  | .progressNote _ :: rest => checkProgress rest
  | .silenceNote :: .stateChange .processing :: rest => checkFinals rest
  | .stateChange .processing :: rest => checkFinals rest
  | [ .stateChange (.error _)] => true
  | _ => false

/-- The amended §4.4 ordering contract for a full session trace. -/
def checkTrace : List SinkEvent → Bool
  | .stateChange .listening :: rest => checkProgress rest
  | _ => false

/-- Parse for the claim exactly as stated: like `checkProgress` but with a
mandatory `Processing` before the terminal state change. -/
def claimProgress : List SinkEvent → Bool
  | .progressNote _ :: rest => claimProgress rest
  | .silenceNote :: .stateChange .processing :: rest => checkFinals rest
  | .stateChange .processing :: rest => checkFinals rest
  | _ => false

/-- The §4.4 ordering contract exactly as the claim states it:
`Listening`, partials, optional silence, then always `Processing`, then the
terminal. -/
def specTraceC2 : List SinkEvent → Bool
  | .stateChange .listening :: rest => claimProgress rest
  | _ => false

end Dikto

namespace Dikto

theorem checkProgress_append_progress :
    ∀ ps rest, (∀ e ∈ ps, ∃ n, e = SinkEvent.progressNote n) →
      checkProgress (ps ++ rest) = checkProgress rest := by
  intro ps
  induction ps with
  | nil => intro rest _; rfl
  | cons e ps ih =>
      intro rest hp
      obtain ⟨n, rfl⟩ := hp e (List.mem_cons_self e ps)
      rw [List.cons_append, checkProgress]
      exact ih rest (fun e he => hp e (List.mem_cons_of_mem _ he))

theorem checkFinals_append_finals :
    ∀ fins rest, finalsOnly fins →
      checkFinals (fins ++ rest) = checkFinals rest := by
  intro fins
  induction fins with
  | nil => intro rest _; rfl
  | cons e fins ih =>
      intro rest hf
      obtain ⟨t, rfl⟩ := hf e (List.mem_cons_self e fins)
      rw [List.cons_append, checkFinals]
      exact ih rest (fun e he => hf e (List.mem_cons_of_mem _ he))

theorem checkFinals_terminal (r : Except SottoError (List Char)) :
    checkFinals [terminalEvent r] = true := by
  rcases r with t | e <;> rfl

theorem countP_terminal_progress (ps : List SinkEvent)
    (h : ∀ e ∈ ps, ∃ n, e = SinkEvent.progressNote n) :
    ps.countP isTerminal = 0 := by
  rw [List.countP_eq_zero]
  intro a ha
  obtain ⟨n, rfl⟩ := h a ha
  simp [isTerminal]

theorem countP_terminal_finals (fins : List SinkEvent) (h : finalsOnly fins) :
    fins.countP isTerminal = 0 := by
  rw [List.countP_eq_zero]
  intro a ha
  obtain ⟨t, rfl⟩ := h a ha
  simp [isTerminal]

theorem isTerminal_terminalEvent (r : Except SottoError (List Char)) :
    isTerminal (terminalEvent r) = true := by
  rcases r with t | e <;> rfl

end Dikto

namespace Dikto

/-- C2 (amended): every terminated session delivers its sink callbacks in
the order `Listening`, then throttled partial notifications, then — when
the run reaches the flush stage — an optional VAD silence notice
immediately followed by `Processing` and the final segments, and always
ends with exactly one terminal state change (`Done`/`Error`); `Processing`
is skipped exactly on the error exits that abort before the flush stage
(capture/VAD construction failure, VAD chunk error), which always end in
`Error`.  No partial notification follows the terminal event, and the
terminal event occurs exactly once. -/
theorem c2_event_order_amended (orc : PipelineOracles) (inputs : List LoopInput)
    (r : Except SottoError (List Char)) (hcs : 0 < orc.chunkSize)
    (h : (runPipelineModel orc inputs).2.1 = some r) :
    checkTrace (runWorkerModel orc inputs) = true ∧
    (runWorkerModel orc inputs).countP isTerminal = 1 := by
  rcases hcap : orc.captureInitOk with e | u
  · have htr : runWorkerModel orc inputs
        = [SinkEvent.stateChange .listening, terminalEvent (.error (.audio e))] := by
      unfold runWorkerModel runPipelineModel
      rw [hcap]
      rfl
    rw [htr]
    exact ⟨rfl, by simp [List.countP_cons, isTerminal, terminalEvent]⟩
  · rcases hvad : orc.vadInitOk with e | v
    · have htr : runWorkerModel orc inputs
          = [SinkEvent.stateChange .listening, terminalEvent (.error (.vad e))] := by
        unfold runWorkerModel runPipelineModel
        rw [hcap, hvad]
        rfl
      rw [htr]
      exact ⟨rfl, by simp [List.countP_cons, isTerminal, terminalEvent]⟩
    · rcases hrl : runLoop orc initState inputs with ⟨evs, r1, inf⟩ | ⟨evs, st1⟩
      · have htr : runWorkerModel orc inputs
            = (SinkEvent.stateChange .listening :: evs) ++ [terminalEvent r1] := by
          unfold runWorkerModel runPipelineModel
          rw [hcap, hvad, hrl]
        obtain ⟨ps, tail, hevs, hps, hshape⟩ :=
          runLoop_finished_shape orc inputs initState evs r1 inf hrl
        subst hevs
        have hassoc : (SinkEvent.stateChange RecordingState.listening
              :: (ps ++ tail)) ++ [terminalEvent r1]
            = SinkEvent.stateChange .listening
              :: (ps ++ (tail ++ [terminalEvent r1])) := by
          simp [List.append_assoc]
        rw [htr, hassoc]
        constructor
        · show checkProgress (ps ++ (tail ++ [terminalEvent r1])) = true
          rw [checkProgress_append_progress ps _ hps]
          rcases hshape with ⟨htail, e0, herr⟩ | ⟨sil, fins, hsil, hfins, htail, herr⟩
          · subst htail
            rw [herr]
            rfl
          · subst htail
            rcases hsil with rfl | rfl
            · show checkFinals (fins ++ [terminalEvent r1]) = true
              rw [checkFinals_append_finals fins _ hfins]
              exact checkFinals_terminal r1
            · show checkFinals (fins ++ [terminalEvent r1]) = true
              rw [checkFinals_append_finals fins _ hfins]
              exact checkFinals_terminal r1
        · have htail0 : tail.countP isTerminal = 0 := by
            rcases hshape with ⟨htail, _, _⟩ | ⟨sil, fins, hsil, hfins, htail, _⟩
            · subst htail; rfl
            · subst htail
              rcases hsil with rfl | rfl
              · simp [List.countP_cons, isTerminal,
                  countP_terminal_finals fins hfins]
              · simp [List.countP_cons, List.countP_append, isTerminal,
                  countP_terminal_finals fins hfins]
          have h1 : isTerminal (SinkEvent.stateChange RecordingState.listening)
              = false := rfl
          rw [List.countP_cons, List.countP_append, List.countP_append,
            countP_terminal_progress ps hps, htail0, List.countP_cons,
            List.countP_nil, isTerminal_terminalEvent, h1]
          simp
      · have hres : (runPipelineModel orc inputs).2.1 = none := by
          unfold runPipelineModel
          rw [hcap, hvad, hrl]
        rw [hres] at h
        exact Option.noConfusion h

end Dikto

namespace Dikto

/-- Oracles for a healthy environment whose VAD only ever reports silence. -/
def okOracles : PipelineOracles :=
  { captureInitOk := .ok (), vadInitOk := .ok (), chunkSize := 3,
    vadStep := fun _ => .ok VadEvent.silence, flushLockOk := true,
    transcribeFn := fun _ => .ok [] }

/-- Oracles for an environment whose VAD fails to construct. -/
def vadInitFailOracles : PipelineOracles :=
  { captureInitOk := .ok (), vadInitOk := .error "vad init failed",
    chunkSize := 1, vadStep := fun _ => .ok VadEvent.silence,
    flushLockOk := true, transcribeFn := fun _ => .ok [] }

/-- An iteration in which the caller has requested stop. -/
def stopInput : LoopInput :=
  { stopNow := true, timedOut := false, samples := [], throttleReady := false }

/-- An iteration delivering two samples, no stop, no timeout. -/
def twoSamplesInput : LoopInput :=
  { stopNow := false, timedOut := false, samples := [1, 2],
    throttleReady := false }

end Dikto

namespace Dikto

/-- C2, counterexample: a session whose VAD fails to construct terminates
with `Listening` followed directly by the terminal `Error` — no
`Processing` state change is ever emitted — so the claimed order
"… then Processing, then exactly one terminal state change" is violated by
this run. -/
theorem c2_event_order_counterexample :
    (runPipelineModel vadInitFailOracles []).2.1
      = some (.error (.vad "vad init failed")) ∧
    runWorkerModel vadInitFailOracles []
      = [SinkEvent.stateChange .listening,
         SinkEvent.stateChange (.error "VAD error: vad init failed")] ∧
    specTraceC2 (runWorkerModel vadInitFailOracles []) = false :=
  ⟨rfl, rfl, rfl⟩

theorem c2_event_order_amended_witness :
    checkTrace (runWorkerModel okOracles [stopInput]) = true ∧
    (runWorkerModel okOracles [stopInput]).countP isTerminal = 1 :=
  c2_event_order_amended okOracles [stopInput] (.ok []) (by decide) rfl

/-- C10: a pipeline run that terminates by stop or timeout with a VAD that
never reported `SpeechStart` (and never failed) flushes an empty session:
no inference call is made, the loop trace is just the `Processing`
transition, and the terminal state is `Done` with empty text. -/
theorem c10_no_speech_no_inference (orc : PipelineOracles)
    (inputs : List LoopInput) (evs : List SinkEvent)
    (r : Except SottoError (List Char)) (inf : Option (List Sample))
    (hcs : 0 < orc.chunkSize)
    (hns : ∀ n ev, orc.vadStep n = .ok ev → ev ≠ VadEvent.speechStart)
    (hne : ∀ n e, orc.vadStep n ≠ .error e)
    (h : runLoop orc initState inputs = .finished evs r inf) :
    r = .ok [] ∧ inf = none ∧ evs = [SinkEvent.stateChange .processing] ∧
    terminalEvent r = .stateChange (.done []) := by
  obtain ⟨h1, h2, h3⟩ := runLoop_noSpeech_finished orc hns hne inputs initState
    evs r inf rfl rfl h
  refine ⟨h2, h3, h1, ?_⟩
  rw [h2]
  rfl

theorem c10_no_speech_no_inference_witness :
    (Except.ok [] : Except SottoError (List Char)) = .ok [] ∧
    (none : Option (List Sample)) = none ∧
    [SinkEvent.stateChange .processing] = [SinkEvent.stateChange .processing] ∧
    terminalEvent (.ok []) = .stateChange (.done []) :=
  c10_no_speech_no_inference okOracles [stopInput]
    [SinkEvent.stateChange .processing] (.ok []) none (by decide)
    (by intro n ev hv; injection hv with hv; subst hv; decide)
    (by intro n e hv; exact Except.noConfusion hv) rfl

/-- C3: after processing any sequence of capture batches with no speech
detected, the pre-speech buffer holds exactly the `preSpeechMax = 16000`
most recent samples of the captured audio — its length never exceeds
16000, and each push discards the oldest samples first. -/
theorem c3_pre_speech_bound (orc : PipelineOracles) (inputs : List LoopInput)
    (evs : List SinkEvent) (st1 : LoopState) (buf s : List Sample)
    (hcs : 0 < orc.chunkSize)
    (hns : ∀ n ev, orc.vadStep n = .ok ev → ev ≠ VadEvent.speechStart)
    (h : runLoop orc initState inputs = .ranOut evs st1) :
    st1.preSpeech = lastN preSpeechMax ((inputs.map LoopInput.samples).flatten) ∧
    st1.preSpeech.length ≤ preSpeechMax ∧
    preSpeechMax = 16000 ∧
    preSpeechPush buf s = lastN preSpeechMax (buf ++ s) ∧
    (preSpeechPush buf s).length ≤ preSpeechMax := by
  obtain ⟨h1, h2⟩ := runLoop_ranOut_preSpeech orc hns inputs initState evs st1
    rfl (by decide) h
  have h0 : (initState.preSpeech ++ (inputs.map LoopInput.samples).flatten)
      = (inputs.map LoopInput.samples).flatten := List.nil_append _
  refine ⟨by rw [h1, h0], by rw [h1]; exact lastN_length_le _ _, rfl,
    preSpeechPush_eq_lastN buf s, preSpeechPush_length_le buf s⟩

theorem c3_pre_speech_bound_witness :
    (LoopState.mk [1, 2] false [1, 2] [] 0).preSpeech
        = lastN preSpeechMax (([twoSamplesInput].map LoopInput.samples).flatten) ∧
    (LoopState.mk [1, 2] false [1, 2] [] 0).preSpeech.length ≤ preSpeechMax ∧
    preSpeechMax = 16000 ∧
    preSpeechPush [3] [4] = lastN preSpeechMax ([3] ++ [4]) ∧
    (preSpeechPush [3] [4]).length ≤ preSpeechMax :=
  c3_pre_speech_bound okOracles [twoSamplesInput] []
    (LoopState.mk [1, 2] false [1, 2] [] 0) [3] [4] (by decide)
    (by intro n ev hv; injection hv with hv; subst hv; decide)
    (by simp [runLoop, processChunks, okOracles, twoSamplesInput, initState,
      preSpeechPush, preSpeechMax])

end Dikto
